import Mathlib

/-!
# Verification of the Carewurx caregiver assignment engine

A shallow embedding of `src/python_agent/caregiver_optimizer.py`: the
client/position data model, the per-position acceptance and mutation
operations, the difficulty sort, the backtracking assignor, the
position-count search, the validator/classifier, the oversized-client
splitter, and the orchestrator.  Python lists become `List`, `Optional`
becomes `Option`, Python `int` fields become `Nat` (the specification
declares `hours`/`days` non-negative), and truthiness tests on lists and
optionals are written out explicitly.  The only place where the Python
semantics is not fully deterministic is `list(set(...))` in
`unassign_client`: Python leaves the iteration order of a `set`
unspecified, so the embedding picks the first-occurrence order
(`dedup`); theorems about `zip_codes` therefore only ever compare the
collection's membership, never its order.
-/

/-- `Client` record: one care recipient (`caregiver_optimizer.py`, class `Client`). -/
structure Client where
  name : String
  hours : Nat
  days : Nat
  needs_driver : Bool
  zip_code : String
deriving DecidableEq, Repr

/-- `CaregiverPosition`: one caregiver's workload aggregate
(`caregiver_optimizer.py`, class `CaregiverPosition`). -/
structure CaregiverPosition where
  position_id : Nat
  clients : List Client
  total_hours : Nat
  working_days : Nat
  requires_driver : Option Bool
  zip_codes : List String
  position_type : Option String
  driver_type : Option String
deriving DecidableEq, Repr

/-- `CaregiverPosition.__init__`: a fresh, empty position. -/
def mkPosition (id : Nat) : CaregiverPosition :=
  { position_id := id
    clients := []
    total_hours := 0
    working_days := 0
    requires_driver := none
    zip_codes := []
    position_type := none
    driver_type := none }

/-- `CaregiverPosition.can_accept_client`: driver consistency,
45-hour cap, 5-day cap (simplified sum). -/
def CaregiverPosition.can_accept_client (p : CaregiverPosition) (c : Client) : Bool :=
  (match p.requires_driver with
   | some b => c.needs_driver == b
   | none => true)
  && p.total_hours + c.hours ≤ 45
  && p.working_days + c.days ≤ 5

/-- `CaregiverPosition.assign_client`: the first client fixes
`requires_driver`; totals grow by the client's hours/days; the zip label is
appended when not already present. -/
def CaregiverPosition.assign_client (p : CaregiverPosition) (c : Client) : CaregiverPosition :=
  { p with
    requires_driver := if p.clients.isEmpty then some c.needs_driver else p.requires_driver
    clients := p.clients ++ [c]
    total_hours := p.total_hours + c.hours
    working_days := p.working_days + c.days
    zip_codes := if p.zip_codes.contains c.zip_code then p.zip_codes
                 else p.zip_codes ++ [c.zip_code] }

/-- `CaregiverPosition.unassign_client`: when the client is present, remove its
first occurrence, subtract its hours/days, recompute `zip_codes` from the
remaining clients (Python: `list(set(c.zip_code for c in self.clients if
c.zip_code))`, which drops empty-string labels; the embedding fixes
first-occurrence order for the unspecified set order) and recompute
`requires_driver` (`None` when the position becomes empty).  When the client
is absent, the Python code only prints a warning and changes nothing. -/
def CaregiverPosition.unassign_client (p : CaregiverPosition) (c : Client) : CaregiverPosition :=
  if p.clients.contains c then
    let cl := p.clients.erase c
    { p with
      clients := cl
      total_hours := p.total_hours - c.hours
      working_days := p.working_days - c.days
      zip_codes := ((cl.filter (fun x => x.zip_code ≠ "")).map (fun x => x.zip_code)).dedup
      requires_driver := if cl.isEmpty then none else some (cl.any (fun x => x.needs_driver)) }
  else p

/-! ## Difficulty sort (`sort_by_assignment_difficulty`)

Python sorts by the key `(0 if needs_driver else 1, -hours, -days)` with a
stable sort.  The embedding is a stable insertion sort: each client is placed
after every already-placed client whose key is less than or equal to its own,
which produces exactly the stable ascending-by-key order. -/

/-- `difficulty_score a ≤ difficulty_score b` for the Python key
`(0 if needs_driver else 1, -hours, -days)`, compared lexicographically. -/
def difficultyLE (a b : Client) : Bool :=
  let da : Nat := if a.needs_driver then 0 else 1
  let db : Nat := if b.needs_driver then 0 else 1
  if da ≠ db then decide (da < db)
  else if a.hours ≠ b.hours then decide (b.hours < a.hours)
  else decide (b.days ≤ a.days)

/-- Stable insertion of one client into an already-sorted list. -/
def insertByDifficulty (x : Client) : List Client → List Client
  | [] => [x]
  | y :: ys => if difficultyLE y x then y :: insertByDifficulty x ys else x :: y :: ys

/-- `sort_by_assignment_difficulty`: stable sort by assignment difficulty. -/
def sort_by_assignment_difficulty (cs : List Client) : List Client :=
  cs.foldl (fun acc x => insertByDifficulty x acc) []

/-! ## Backtracking assignor (`backtrack_assignment`)

The Python function mutates the shared `positions` list in place; the
embedding threads the list explicitly.  The inner `for position in positions`
loop is the index loop `tryPositionsLoop`; after a failed recursive call the
Python code undoes the placement with `unassign_client` on the mutated list,
which the embedding reproduces by continuing with
`ps.set i ((p.assign_client c).unassign_client c)` (this matters: undoing is
not always the syntactic identity, see claim C6). -/

def tryPositionsLoop (c : Client)
    (rest : List CaregiverPosition → Option (List CaregiverPosition)) :
    List CaregiverPosition → List Nat → Option (List CaregiverPosition)
  | _, [] => none
  | ps, i :: is =>
    if h : i < ps.length then
      let p := ps[i]
      if p.can_accept_client c then
        match rest (ps.set i (p.assign_client c)) with
        | some r => some r
        | none => tryPositionsLoop c rest (ps.set i ((p.assign_client c).unassign_client c)) is
      else tryPositionsLoop c rest ps is
    else none

def backtrack_assignment : List Client → List CaregiverPosition → Option (List CaregiverPosition)
  | [], ps => some ps
  | c :: cs, ps => tryPositionsLoop c (backtrack_assignment cs) ps (List.range ps.length)

/-! ## Validator / classifier -/

/-- `all_constraints_satisfied`: every populated position must have
16 ≤ total_hours ≤ 45, working_days ≤ 5, and a `requires_driver` flag equal to
"some assigned client needs a driver" (a `None` flag fails the comparison,
exactly as Python's `None != expected` does). -/
def all_constraints_satisfied (ps : List CaregiverPosition) : Bool :=
  ps.all fun p =>
    if p.clients.isEmpty then true
    else
      (16 ≤ p.total_hours && p.total_hours ≤ 45)
      && p.working_days ≤ 5
      && (p.requires_driver == some (p.clients.any fun c => c.needs_driver))

/-- The per-position stamping step of `validate_and_return_solution`'s final
loop: re-ID, set `position_type` by the 24-hour tier cut, re-affirm
`requires_driver` from the clients (`False` for the defensively handled empty
case), and set `driver_type` from it. -/
def stampPosition (p : CaregiverPosition) (newId : Nat) : CaregiverPosition :=
  let rd : Bool := if p.clients.isEmpty then false else p.clients.any fun c => c.needs_driver
  { p with
    position_id := newId
    position_type := some (if p.total_hours ≤ 24 then "Part-time" else "Full-time")
    requires_driver := some rd
    driver_type := some (if rd then "Driver" else "Non-driver") }

/-- The `for i, position in enumerate(populated_positions)` loop. -/
def relabelPositions : List CaregiverPosition → Nat → List CaregiverPosition
  | [], _ => []
  | p :: ps, n => stampPosition p n :: relabelPositions ps (n + 1)

/-- `validate_and_return_solution`: drop empty positions, run the dead
all-became-empty guard (its condition is the literal Python
`not populated_positions and any(pos.clients for pos in positions_to_validate)`),
return the empty success when nothing is populated, reject the whole set when
`all_constraints_satisfied` fails, otherwise stamp and re-ID sequentially. -/
def validate_and_return_solution (ps : List CaregiverPosition) (new_id_start : Nat) :
    Option (List CaregiverPosition) :=
  let populated := ps.filter fun p => !p.clients.isEmpty
  if populated.isEmpty && ps.any (fun p => !p.clients.isEmpty) then none
  else if populated.isEmpty then some []
  else if all_constraints_satisfied populated then
    some (relabelPositions populated new_id_start)
  else none

/-! ## Fixed-count attempt and position-count search -/

/-- All client names appearing in a solution's positions. -/
def solutionClientNames (ps : List CaregiverPosition) : List String :=
  (ps.map fun p => p.clients.map fun c => c.name).flatten

/-- Equality of Python name *sets*: same members, multiplicity and order
ignored. -/
def sameNameSets (a b : List String) : Bool :=
  a.all (fun x => b.contains x) && b.all (fun x => a.contains x)

/-- `attempt_assignment`: try to place every client into exactly `target`
fresh positions; `None` signals failure, distinct from the empty success.
Python's truthiness tests on the raw and validated lists are written out as
`isEmpty` checks. -/
def attempt_assignment (clients : List Client) (target : Nat) (pid_start : Nat) :
    Option (List CaregiverPosition) :=
  if clients.isEmpty then some []
  else if target = 0 then none
  else
    let positions := (List.range target).map fun i => mkPosition (pid_start + i)
    match backtrack_assignment (sort_by_assignment_difficulty clients) positions with
    | none => none
    | some raw =>
      if raw.isEmpty then none
      else
        match validate_and_return_solution raw pid_start with
        | none => none
        | some validated =>
          if validated.isEmpty then none
          else if sameNameSets (solutionClientNames validated) (clients.map fun c => c.name)
          then some validated
          else none

def sumClientHours (cs : List Client) : Nat := (cs.map fun c => c.hours).sum

/-- The `for target_caregivers in range(theoretical_min, practical_max + 1)`
loop of `constraint_satisfaction_algorithm`: return the first target whose
attempt is truthy (non-`None` and non-empty) and covers every original client
name; otherwise keep going, and return `[]` when the range is exhausted. -/
def searchLoop (clients : List Client) (pid_start : Nat) : List Nat → List CaregiverPosition
  | [] => []
  | t :: ts =>
    match attempt_assignment clients t pid_start with
    | none => searchLoop clients pid_start ts
    | some sol =>
      if sol.isEmpty then searchLoop clients pid_start ts
      else if sameNameSets (solutionClientNames sol) (clients.map fun c => c.name) then sol
      else searchLoop clients pid_start ts

/-- `constraint_satisfaction_algorithm`: the position-count search.  Note the
zero-hour filter runs only inside the `total_hours == 0` branch, exactly as in
the source; `math.ceil(total / 45)` on naturals is `(total + 44) / 45`. -/
def constraint_satisfaction_algorithm (clients0 : List Client) (pid_start : Nat) :
    List CaregiverPosition :=
  if clients0.isEmpty then []
  else
    let clients := if sumClientHours clients0 = 0
                   then clients0.filter fun c => decide (0 < c.hours)
                   else clients0
    if clients.isEmpty then []
    else
      let total := sumClientHours clients
      let t0 := if 0 < total then (total + 44) / 45 else 0
      let tmin := max 1 t0
      let pmax := clients.length
      searchLoop clients pid_start (List.range' tmin (pmax + 1 - tmin))

/-! ## Oversized-client splitter (`handle_mandatory_splits`) -/

/-- `math.ceil(client.hours / 45)` on naturals. -/
def numSplits (c : Client) : Nat := (c.hours + 44) / 45

/-- One synthetic sub-client of the splitter's inner loop (0-based part index
`i`, displayed 1-based in the name): base share plus one extra hour/day for
the first `hours % k` / `days % k` parts, with `days` forced to 1 when the
part has hours, the original had days, and the computed share is 0. -/
def splitPartClient (c : Client) (k i : Nat) : Client :=
  let part_hours := c.hours / k + (if i < c.hours % k then 1 else 0)
  let pd := c.days / k + (if i < c.days % k then 1 else 0)
  let part_days := if 0 < part_hours ∧ 0 < c.days ∧ pd = 0 then 1 else pd
  { name := c.name ++ " (Part " ++ toString (i + 1) ++ "/" ++ toString k ++ ")"
    hours := part_hours
    days := part_days
    needs_driver := c.needs_driver
    zip_code := c.zip_code }

/-- `handle_mandatory_splits`: each client over 45 hours is decomposed into
`numSplits` sub-clients, each sealed alone into its own fresh position (the
running position id advances by one per part); other clients pass through
unchanged. -/
def handle_mandatory_splits : List Client → Nat → List CaregiverPosition × List Client
  | [], _ => ([], [])
  | c :: cs, pid =>
    if 45 < c.hours then
      let k := numSplits c
      let parts := (List.range k).map fun i =>
        (mkPosition (pid + i)).assign_client (splitPartClient c k i)
      let rest := handle_mandatory_splits cs (pid + k)
      (parts ++ rest.1, rest.2)
    else
      let rest := handle_mandatory_splits cs pid
      (rest.1, c :: rest.2)

/-- `post_optimization_merge`: the reference behavior is a pass-through. -/
def post_optimization_merge (ps : List CaregiverPosition) : List CaregiverPosition := ps

/-! ## Orchestrator (`optimize_with_strategic_enhancements`) -/

/-- The provisional type stamping applied to split-derived positions
(orchestrator phase 1); `"Driver" if pos.requires_driver else ...` is truthy
only for `Some True`. -/
def stampSplitTypes (p : CaregiverPosition) : CaregiverPosition :=
  { p with
    position_type := some (if p.total_hours ≤ 24 then "Part-time" else "Full-time")
    driver_type := some (if p.requires_driver == some true then "Driver" else "Non-driver") }

def sumPositionHours (ps : List CaregiverPosition) : Nat := (ps.map fun p => p.total_hours).sum

/-- `optimize_with_strategic_enhancements`, with the total-hours consistency
warning of its phase 5 modelled as the returned Boolean: the flag is set (a
warning is printed) exactly when the final validated solution's total hours
differ from the original clients' total; the result is returned either way.
Early exits never reach the check and carry `false`. -/
def optimize_with_warn (clients : List Client) : List CaregiverPosition × Bool :=
  if clients.isEmpty then ([], false)
  else
    let split := handle_mandatory_splits clients 1
    let positions_from_splits := split.1.map stampSplitTypes
    let next_pos_id :=
      match split.1 with
      | [] => 1
      | p :: ps => (ps.foldl (fun a q => max a q.position_id) p.position_id) + 1
    let additional :=
      if !split.2.isEmpty then constraint_satisfaction_algorithm split.2 next_pos_id else []
    let combined := positions_from_splits ++ additional
    if combined.isEmpty then ([], false)
    else
      match validate_and_return_solution (post_optimization_merge combined) 1 with
      | none => ([], false)
      | some final => (final, decide (sumPositionHours final ≠ sumClientHours clients))

/-- The orchestrator's returned schedule. -/
def optimize_with_strategic_enhancements (clients : List Client) : List CaregiverPosition :=
  (optimize_with_warn clients).1

/-! ## Input records and `generate_optimal_schedule` -/

/-- A raw numeric field of an input record: absent (the documented default
applies), present but not convertible by `int(...)` (raises `ValueError`), or
a value.  The specification's interface declares hours/days non-negative. -/
inductive NumField
  | missing
  | bad
  | val (n : Nat)
deriving DecidableEq, Repr

/-- One raw input record (`Dict` entry of `generate_optimal_schedule`).
`bool(...)` and `str(...)` never raise, so those fields are only
present-or-missing. -/
structure ClientRecord where
  name : Option String
  hours : NumField
  days : NumField
  needs_driver : Option Bool
  zip_code : Option String
deriving DecidableEq, Repr

def numFieldValue : NumField → Nat
  | NumField.val n => n
  | _ => 0

/-- The record-to-`Client` conversion of `generate_optimal_schedule`'s input
loop at 0-based index `i`: a `ValueError` from either `int(...)` skips the
record; missing fields take the documented defaults (`Client_{i+1}`, 0, 0,
`False`, `"00000"`). -/
def parseClientRecord (i : Nat) (r : ClientRecord) : Option Client :=
  if r.hours = NumField.bad ∨ r.days = NumField.bad then none
  else
    some
      { name := r.name.getD ("Client_" ++ toString (i + 1))
        hours := numFieldValue r.hours
        days := numFieldValue r.days
        needs_driver := r.needs_driver.getD false
        zip_code := r.zip_code.getD "00000" }

/-- One output record of the schedule. -/
structure ScheduleEntry where
  caregiver_id : String
  type : String
  weekly_hours : Nat
  working_days : Nat
  clients : List String
  zip_codes : List String
  driver_required : Option Bool
deriving DecidableEq, Repr

/-- Python string interpolation of an `Optional[str]`. -/
def optionalStr : Option String → String
  | some s => s
  | none => "None"

/-- Ascending insertion for `sorted(...)` on strings. -/
def insertStr (s : String) : List String → List String
  | [] => [s]
  | t :: ts => if t ≤ s then t :: insertStr s ts else s :: t :: ts

def sortedStrings (l : List String) : List String := l.foldl (fun acc s => insertStr s acc) []

def positionToEntry (p : CaregiverPosition) : ScheduleEntry :=
  { caregiver_id := "CG_" ++ toString p.position_id
    type := optionalStr p.position_type ++ " " ++ optionalStr p.driver_type
    weekly_hours := p.total_hours
    working_days := p.working_days
    clients := p.clients.map fun c => c.name
    zip_codes := sortedStrings p.zip_codes.dedup
    driver_required := p.requires_driver }

/-- `generate_optimal_schedule`: parse records (skipping malformed ones), run
the orchestrator, format the output; empty/invalid input and empty
optimization results yield the empty sequence. -/
def generate_optimal_schedule (records : List ClientRecord) : List ScheduleEntry :=
  let clients := records.enum.filterMap fun x => parseClientRecord x.1 x.2
  if clients.isEmpty then []
  else
    let pos := optimize_with_strategic_enhancements clients
    if pos.isEmpty then []
    else pos.map positionToEntry

/-! ## Specification-side definitions used to state the claims -/

/-- The claim's split count, stated as a ceiling: `ceil(hours / 45)`. -/
def claimNumSplits (c : Client) : Nat :=
  if c.hours % 45 = 0 then c.hours / 45 else c.hours / 45 + 1

/-- The sub-client exactly as claim C5 words it: part `i` (0-based) receives
`hours // num_splits` plus one extra hour when `i < hours % num_splits`, the
analogous rule for days, the force-days-to-1 exception, inherited
`needs_driver`/`zip_code`, and the `" (Part i/num_splits)"` name (the part
number is displayed 1-based). -/
def claimSplitPart (c : Client) (i : Nat) : Client :=
  let k := claimNumSplits c
  let part_hours := c.hours / k + (if i < c.hours % k then 1 else 0)
  let pd := c.days / k + (if i < c.days % k then 1 else 0)
  { name := c.name ++ " (Part " ++ toString (i + 1) ++ "/" ++ toString k ++ ")"
    hours := part_hours
    days := if 0 < part_hours ∧ 0 < c.days ∧ pd = 0 then 1 else pd
    needs_driver := c.needs_driver
    zip_code := c.zip_code }

/-- A client group that could form one fully valid position: non-empty,
driver-homogeneous, 16 ≤ total hours ≤ 45, total days ≤ 5. -/
def validGroup (g : List Client) : Bool :=
  match g with
  | [] => false
  | x :: _ =>
    g.all (fun c => c.needs_driver == x.needs_driver)
    && 16 ≤ sumClientHours g && sumClientHours g ≤ 45
    && (g.map fun c => c.days).sum ≤ 5

/-- "A fully valid, fully-assigning solution with `k` positions exists": the
clients can be partitioned into `k` groups, each of which forms a fully valid
position. -/
def solutionExistsFor (cs : List Client) (k : Nat) : Prop :=
  ∃ gs : List (List Client), gs.length = k
    ∧ (∀ g ∈ gs, validGroup g = true)
    ∧ gs.flatten.Perm cs

/-- The position-count search accepts target `t` exactly when the single
backtracking attempt at `t` is truthy (non-`None`, non-empty) and covers every
original client name. -/
def attemptOk (clients : List Client) (pid_start t : Nat) : Bool :=
  match attempt_assignment clients t pid_start with
  | none => false
  | some sol =>
    !sol.isEmpty && sameNameSets (solutionClientNames sol) (clients.map fun c => c.name)

/-- The positions produced by the attempt at target `t` (`[]` on failure). -/
def attemptResult (clients : List Client) (pid_start t : Nat) : List CaregiverPosition :=
  (attempt_assignment clients t pid_start).getD []

/-! # Claims -/

/-! ## Claim C9: unassigning an absent client is a no-op -/

/-- C9: unassigning a client that is not currently in a position leaves every
field of that position unchanged (clients, total_hours, working_days,
requires_driver, zip_codes); the Python code only emits a warning and never
touches the position's totals. -/
theorem C9_unassign_absent_noop (p : CaregiverPosition) (c : Client)
    (h : c ∉ p.clients) : p.unassign_client c = p := by
  unfold CaregiverPosition.unassign_client
  rw [if_neg]
  simpa using h

theorem C9_unassign_absent_noop_witness :
    (mkPosition 3).unassign_client ⟨"A", 20, 2, false, "90210"⟩ = mkPosition 3 :=
  C9_unassign_absent_noop (mkPosition 3) ⟨"A", 20, 2, false, "90210"⟩ (by decide)

/-! ## Claim C6: assign/unassign round trip -/

/-- C6 counterexample: the round trip does not restore the exact prior state on
all derived fields.  A position holding a client whose zip label is the empty
string has `zip_codes = [""]`; after assigning and unassigning a second,
acceptable client, `unassign_client` recomputes `zip_codes` with Python's
truthiness filter (`if c.zip_code`), which drops the empty label, so the
collection is not restored. -/
theorem C6_round_trip_counterexample :
    (((mkPosition 1).assign_client ⟨"X", 20, 1, false, ""⟩).can_accept_client
        ⟨"Y", 10, 1, false, "90210"⟩ = true)
    ∧ ((((mkPosition 1).assign_client ⟨"X", 20, 1, false, ""⟩).assign_client
          ⟨"Y", 10, 1, false, "90210"⟩).unassign_client ⟨"Y", 10, 1, false, "90210"⟩).zip_codes
        ≠ ((mkPosition 1).assign_client ⟨"X", 20, 1, false, ""⟩).zip_codes := by
  decide

/-- C6 amended: for every position whose derived fields are consistent with its
client list (as holds for every state the backtracking search reaches) and
every acceptable client not already present (Python compares clients by object
identity, so the client being placed is never already in the position),
assigning and then unassigning restores `clients`, `total_hours`,
`working_days` and `requires_driver` exactly (including restoring
`requires_driver` to unset when the position becomes empty again); the
`zip_codes` collection is restored as a set provided no remaining client
carries an empty zip label (the recomputation drops empty labels, and its
order is unspecified in Python). -/
theorem C6_round_trip_amended (p : CaregiverPosition) (c : Client)
    (hrd : p.requires_driver =
      if p.clients.isEmpty then none else some (p.clients.any (fun x => x.needs_driver)))
    (hzip : ∀ z, z ∈ p.zip_codes ↔ z ∈ p.clients.map (fun x => x.zip_code))
    (hz : ∀ x ∈ p.clients, x.zip_code ≠ "")
    (hacc : p.can_accept_client c = true)
    (hmem : c ∉ p.clients) :
    ((p.assign_client c).unassign_client c).clients = p.clients
    ∧ ((p.assign_client c).unassign_client c).total_hours = p.total_hours
    ∧ ((p.assign_client c).unassign_client c).working_days = p.working_days
    ∧ ((p.assign_client c).unassign_client c).requires_driver = p.requires_driver
    ∧ (∀ z, z ∈ ((p.assign_client c).unassign_client c).zip_codes ↔ z ∈ p.zip_codes) := by
  have hcontains : (p.assign_client c).clients.contains c = true := by
    simp [CaregiverPosition.assign_client]
  have herase : (p.assign_client c).clients.erase c = p.clients := by
    show (p.clients ++ [c]).erase c = p.clients
    rw [List.erase_append_right _ hmem]
    simp
  unfold CaregiverPosition.unassign_client
  rw [if_pos hcontains]
  refine ⟨by simpa using herase, ?_, ?_, ?_, ?_⟩
  · show p.total_hours + c.hours - c.hours = p.total_hours
    omega
  · show p.working_days + c.days - c.days = p.working_days
    omega
  · show (if ((p.assign_client c).clients.erase c).isEmpty then none
      else some (((p.assign_client c).clients.erase c).any (fun x => x.needs_driver)))
      = p.requires_driver
    rw [herase, hrd]
  · intro z
    show z ∈ ((((p.assign_client c).clients.erase c).filter
        (fun x => x.zip_code ≠ "")).map (fun x => x.zip_code)).dedup ↔ z ∈ p.zip_codes
    rw [herase, hzip]
    have hfilter : p.clients.filter (fun x => x.zip_code ≠ "") = p.clients := by
      apply List.filter_eq_self.mpr
      intro x hx
      simpa using hz x hx
    rw [hfilter]
    simp

theorem C6_round_trip_amended_witness :
    (((mkPosition 1).assign_client ⟨"A", 20, 1, true, "90210"⟩).assign_client
        ⟨"B", 10, 2, true, "90211"⟩).unassign_client ⟨"B", 10, 2, true, "90211"⟩
      = ((mkPosition 1).assign_client ⟨"A", 20, 1, true, "90210"⟩)
      ∨ ((((mkPosition 1).assign_client ⟨"A", 20, 1, true, "90210"⟩).assign_client
          ⟨"B", 10, 2, true, "90211"⟩).unassign_client ⟨"B", 10, 2, true, "90211"⟩).clients
        = ((mkPosition 1).assign_client ⟨"A", 20, 1, true, "90210"⟩).clients := by
  exact Or.inr (C6_round_trip_amended
    ((mkPosition 1).assign_client ⟨"A", 20, 1, true, "90210"⟩)
    ⟨"B", 10, 2, true, "90211"⟩
    (by decide) (fun z => Iff.rfl) (by decide) (by decide) (by decide)).1

/-! ## Claim C8: validator on all-empty input -/

/-- C8 counterexample: on a non-empty list of positions that are all empty,
the validator returns the empty successful assignment `some []`, not the
`none` failure signal the claim asserts — the guard
`not populated_positions and any(pos.clients ...)` can never fire, because
`populated_positions` is computed from the very same list. -/
theorem C8_all_empty_counterexample :
    validate_and_return_solution [mkPosition 1, mkPosition 2] 1 = some []
    ∧ validate_and_return_solution [mkPosition 1, mkPosition 2] 1 ≠ none := by
  decide

/-- C8 amended: for every list of positions in which every position is empty
(non-empty or not), the validator returns the empty *successful* assignment
`some []`; the `none` failure signal is only ever produced by a constraint
violation of a populated position. -/
theorem C8_all_empty_amended (ps : List CaregiverPosition) (start : Nat)
    (h : ∀ p ∈ ps, p.clients = []) :
    validate_and_return_solution ps start = some [] := by
  have hfilter : ps.filter (fun p => !p.clients.isEmpty) = [] := by
    rw [List.filter_eq_nil_iff]
    intro p hp
    simp [h p hp]
  have hany : ps.any (fun p => !p.clients.isEmpty) = false := by
    rw [List.any_eq_false]
    intro p hp
    simp [h p hp]
  unfold validate_and_return_solution
  simp [hfilter, hany]

theorem C8_all_empty_amended_witness :
    validate_and_return_solution [mkPosition 4, mkPosition 5, mkPosition 6] 3 = some [] :=
  C8_all_empty_amended [mkPosition 4, mkPosition 5, mkPosition 6] 3 (by decide)

/-! ## Claim C4: zero-hour client filtering -/

/-- C4 counterexample: the zero-hour filter runs only inside the
`total_hours == 0` branch, so with clients A (20h) and B (0h) the total is
positive, no filtering happens, and the zero-hour client B appears in the
returned position. -/
theorem C4_zero_hour_counterexample :
    (constraint_satisfaction_algorithm
        [⟨"A", 20, 1, false, "Z"⟩, ⟨"B", 0, 0, false, "Z"⟩] 1).any
      (fun p => p.clients.any fun c => c.hours == 0) = true := by
  decide

/-- C4 amended: zero-hour clients are dropped (and the empty schedule
returned) only when the hour total of the input clients is zero — with
non-negative hours this means every client is zero-hour, the filter empties
the list, and the search returns the empty schedule.  When the total is
positive no filtering occurs and zero-hour clients may appear in returned
positions (see the counterexample). -/
theorem C4_zero_hour_amended (cs : List Client) (s : Nat)
    (h : ∀ c ∈ cs, c.hours = 0) :
    constraint_satisfaction_algorithm cs s = [] := by
  have hsum : sumClientHours cs = 0 := by
    unfold sumClientHours
    rw [List.sum_eq_zero]
    intro x hx
    obtain ⟨c, hc, rfl⟩ := List.mem_map.mp hx
    exact h c hc
  have hfilter : cs.filter (fun c => decide (0 < c.hours)) = [] := by
    rw [List.filter_eq_nil_iff]
    intro c hc
    simp [h c hc]
  unfold constraint_satisfaction_algorithm
  cases cs with
  | nil => simp
  | cons a as => simp [hsum, hfilter]

theorem C4_zero_hour_amended_witness :
    constraint_satisfaction_algorithm
      [⟨"L", 0, 3, true, "90210"⟩, ⟨"M", 0, 2, true, "90210"⟩] 1 = [] :=
  C4_zero_hour_amended [⟨"L", 0, 3, true, "90210"⟩, ⟨"M", 0, 2, true, "90210"⟩] 1 (by decide)

/-! ## Claim C7: malformed-record tolerance -/

/-- Auxiliary: the second component of anything in `enumFrom` is in the list. -/
theorem snd_mem_of_mem_enumFrom {α : Type} :
    ∀ (l : List α) (n : Nat) (x : Nat × α), x ∈ l.enumFrom n → x.2 ∈ l := by
  intro l
  induction l with
  | nil => intro n x hx; simp [List.enumFrom] at hx
  | cons a as ih =>
    intro n x hx
    rw [List.enumFrom] at hx
    rcases List.mem_cons.mp hx with h1 | h2
    · subst h1; exact List.mem_cons_self a as
    · exact List.mem_cons_of_mem a (ih (n + 1) x h2)

/-- C7: a record is skipped exactly when one of its numeric fields raises
`ValueError` (missing fields take the documented defaults instead); if every
record is malformed, or the input is empty, the output is the empty sequence —
the pipeline is total, so a malformed record is never fatal to the run. -/
theorem C7_malformed_records :
    (∀ i r, parseClientRecord i r = none
       ↔ (r.hours = NumField.bad ∨ r.days = NumField.bad))
    ∧ (∀ records : List ClientRecord,
        (∀ r ∈ records, r.hours = NumField.bad ∨ r.days = NumField.bad) →
        generate_optimal_schedule records = [])
    ∧ generate_optimal_schedule [] = [] := by
  refine ⟨?_, ?_, rfl⟩
  · intro i r
    unfold parseClientRecord
    by_cases hb : r.hours = NumField.bad ∨ r.days = NumField.bad <;> simp [hb]
  · intro records h
    unfold generate_optimal_schedule
    have hcl : records.enum.filterMap (fun x => parseClientRecord x.1 x.2) = [] := by
      rw [List.filterMap_eq_nil_iff]
      intro x hx
      have hx2 : x.2 ∈ records := snd_mem_of_mem_enumFrom records 0 x hx
      unfold parseClientRecord
      rw [if_pos (h x.2 hx2)]
    simp [hcl]

theorem C7_malformed_records_witness :
    generate_optimal_schedule
      [{ name := some "Bad", hours := NumField.bad, days := NumField.val 2,
         needs_driver := none, zip_code := none },
       { name := none, hours := NumField.val 3, days := NumField.bad,
         needs_driver := some true, zip_code := some "10001" }] = [] :=
  C7_malformed_records.2.1 _ (by decide)

/-! ## Claim C2: validator/classifier output postconditions -/

theorem relabel_length (l : List CaregiverPosition) :
    ∀ n, (relabelPositions l n).length = l.length := by
  induction l with
  | nil => intro n; rfl
  | cons p ps ih => intro n; simp [relabelPositions, ih]

theorem relabel_ids (l : List CaregiverPosition) :
    ∀ n, (relabelPositions l n).map (fun p => p.position_id) = List.range' n l.length := by
  induction l with
  | nil => intro n; rfl
  | cons p ps ih =>
    intro n
    simp [relabelPositions, stampPosition, ih, List.range'_succ]

theorem relabel_mem_props (l : List CaregiverPosition) :
    ∀ n, (∀ p ∈ l, p.clients ≠ []) → all_constraints_satisfied l = true →
    ∀ q ∈ relabelPositions l n,
      q.clients ≠ []
      ∧ 16 ≤ q.total_hours ∧ q.total_hours ≤ 45
      ∧ q.working_days ≤ 5
      ∧ q.requires_driver = some (q.clients.any fun c => c.needs_driver)
      ∧ q.position_type = some (if q.total_hours ≤ 24 then "Part-time" else "Full-time")
      ∧ q.driver_type =
          some (if q.clients.any (fun c => c.needs_driver) then "Driver" else "Non-driver") := by
  induction l with
  | nil => intro n _ _ q hq; simp [relabelPositions] at hq
  | cons p ps ih =>
    intro n hne hacs q hq
    have hpne : p.clients ≠ [] := hne p (List.mem_cons_self p ps)
    have hpe : p.clients.isEmpty = false := by simpa [List.isEmpty_iff] using hpne
    unfold all_constraints_satisfied at hacs
    simp only [List.all_cons, Bool.and_eq_true] at hacs
    obtain ⟨hfp, htail⟩ := hacs
    rw [hpe] at hfp
    simp only [Bool.false_eq_true, if_false, Bool.and_eq_true, decide_eq_true_eq,
      beq_iff_eq] at hfp
    rw [relabelPositions] at hq
    rcases List.mem_cons.mp hq with rfl | hq'
    · refine ⟨by simpa [stampPosition] using hpne, ?_, ?_, ?_, ?_, ?_, ?_⟩
      · simpa [stampPosition] using hfp.1.1.1
      · simpa [stampPosition] using hfp.1.1.2
      · simpa [stampPosition] using hfp.1.2
      · simp [stampPosition, hpe]
      · simp [stampPosition]
      · simp [stampPosition, hpe]
    · exact ih (n + 1) (fun r hr => hne r (List.mem_cons_of_mem p hr)) htail q hq'

/-- The postconditions `validate_and_return_solution` guarantees on any
successful output. -/
theorem validator_post_aux (ps : List CaregiverPosition) (start : Nat)
    (r : List CaregiverPosition)
    (hv : validate_and_return_solution ps start = some r) :
    (∀ q ∈ r,
      q.clients ≠ []
      ∧ 16 ≤ q.total_hours ∧ q.total_hours ≤ 45
      ∧ q.working_days ≤ 5
      ∧ q.requires_driver = some (q.clients.any fun c => c.needs_driver)
      ∧ q.position_type = some (if q.total_hours ≤ 24 then "Part-time" else "Full-time")
      ∧ q.driver_type =
          some (if q.clients.any (fun c => c.needs_driver) then "Driver" else "Non-driver"))
    ∧ r.map (fun p => p.position_id) = List.range' start r.length := by
  simp only [validate_and_return_solution] at hv
  split at hv
  · exact absurd hv (by simp)
  · split at hv
    · obtain rfl : r = [] := by simpa using hv.symm
      simp
    · split at hv
      next h3 =>
        obtain rfl : r = relabelPositions (ps.filter fun p => !p.clients.isEmpty) start := by
          simpa using hv.symm
        have hne : ∀ p ∈ ps.filter (fun p => !p.clients.isEmpty), p.clients ≠ [] := by
          intro p hp
          have := (List.mem_filter.mp hp).2
          simpa [List.isEmpty_iff] using this
        refine ⟨relabel_mem_props _ start hne h3, ?_⟩
        rw [relabel_ids, relabel_length]
      next h3 => exact absurd hv (by simp)

/-- The orchestrator's output is either empty or a successful validator
output with ids restarting at 1. -/
theorem optimize_output_cases (cs : List Client) :
    optimize_with_strategic_enhancements cs = []
    ∨ ∃ ps, validate_and_return_solution ps 1
        = some (optimize_with_strategic_enhancements cs) := by
  unfold optimize_with_strategic_enhancements optimize_with_warn
  dsimp only
  repeat' split
  all_goals try (left; rfl)
  all_goals rename_i final heq
  all_goals exact Or.inr ⟨_, heq⟩

/-- C2: every position a successful validator pass returns is non-empty,
satisfies 16 ≤ total_hours ≤ 45 and working_days ≤ 5, carries
`requires_driver` equal to "some assigned client needs a driver", is tiered
Part-time exactly when total_hours ≤ 24 and Full-time otherwise, is tagged
Driver exactly when a driver is required, and the surviving positions are
re-numbered sequentially from the caller-supplied start offset; consequently
the pipeline's returned positions satisfy all of these with ids from 1. -/
theorem C2_validator_postconditions :
    (∀ (ps : List CaregiverPosition) (start : Nat) (r : List CaregiverPosition),
      validate_and_return_solution ps start = some r →
      (∀ q ∈ r,
        q.clients ≠ []
        ∧ 16 ≤ q.total_hours ∧ q.total_hours ≤ 45
        ∧ q.working_days ≤ 5
        ∧ q.requires_driver = some (q.clients.any fun c => c.needs_driver)
        ∧ q.position_type = some (if q.total_hours ≤ 24 then "Part-time" else "Full-time")
        ∧ q.driver_type =
            some (if q.clients.any (fun c => c.needs_driver) then "Driver" else "Non-driver"))
      ∧ r.map (fun p => p.position_id) = List.range' start r.length)
    ∧ (∀ cs : List Client,
        (optimize_with_strategic_enhancements cs).map (fun p => p.position_id)
          = List.range' 1 (optimize_with_strategic_enhancements cs).length)
    ∧ (∀ (cs : List Client) (q : CaregiverPosition),
        q ∈ optimize_with_strategic_enhancements cs →
        q.clients ≠ []
        ∧ 16 ≤ q.total_hours ∧ q.total_hours ≤ 45
        ∧ q.working_days ≤ 5
        ∧ q.requires_driver = some (q.clients.any fun c => c.needs_driver)
        ∧ q.position_type = some (if q.total_hours ≤ 24 then "Part-time" else "Full-time")
        ∧ q.driver_type =
            some (if q.clients.any (fun c => c.needs_driver) then "Driver" else "Non-driver")) := by
  refine ⟨validator_post_aux, ?_, ?_⟩
  · intro cs
    rcases optimize_output_cases cs with h | ⟨ps, hv⟩
    · rw [h]; rfl
    · exact (validator_post_aux ps 1 _ hv).2
  · intro cs q hq
    rcases optimize_output_cases cs with h | ⟨ps, hv⟩
    · rw [h] at hq; simp at hq
    · exact (validator_post_aux ps 1 _ hv).1 q hq

theorem C2_validator_postconditions_witness :
    16 ≤ ((mkPosition 9).assign_client ⟨"A", 20, 1, true, "90210"⟩).total_hours
    ∧ (relabelPositions [(mkPosition 9).assign_client ⟨"A", 20, 1, true, "90210"⟩] 5).map
        (fun p => p.position_id) = List.range' 5 1 := by
  have h := C2_validator_postconditions.1
    [(mkPosition 9).assign_client ⟨"A", 20, 1, true, "90210"⟩] 5
    (relabelPositions [(mkPosition 9).assign_client ⟨"A", 20, 1, true, "90210"⟩] 5)
    (by decide)
  refine ⟨?_, h.2⟩
  have hm := h.1 (stampPosition ((mkPosition 9).assign_client ⟨"A", 20, 1, true, "90210"⟩) 5)
    (by decide)
  simpa using hm.2.1

/-! ## Claim C5: splitter decomposition formula -/

theorem claimNumSplits_eq (c : Client) : claimNumSplits c = numSplits c := by
  unfold claimNumSplits numSplits
  by_cases h : c.hours % 45 = 0 <;> simp only [h, if_true, if_false] <;> omega

theorem claimSplitPart_eq (c : Client) (i : Nat) :
    claimSplitPart c i = splitPartClient c (numSplits c) i := by
  unfold claimSplitPart splitPartClient
  rw [claimNumSplits_eq]

/-- C5: a client over 45 hours is decomposed into exactly
`ceil(hours / 45)` sub-clients distributed by the claim's formula (base share
plus one extra for the leading `hours % num_splits` resp. `days % num_splits`
parts, days forced to 1 when zeroed while hours remain and the original had
days), each inheriting `needs_driver`/`zip_code`, named
`"name (Part i/num_splits)"` with the part number displayed 1-based, and each
sealed alone into its own fresh position; a client with at most 45 hours
passes through unchanged. -/
theorem C5_splitter_formula (c : Client) (cs : List Client) (pid : Nat) :
    (45 < c.hours → handle_mandatory_splits (c :: cs) pid =
      ((List.range (claimNumSplits c)).map (fun i =>
          (mkPosition (pid + i)).assign_client (claimSplitPart c i))
        ++ (handle_mandatory_splits cs (pid + claimNumSplits c)).1,
       (handle_mandatory_splits cs (pid + claimNumSplits c)).2))
    ∧ (c.hours ≤ 45 → handle_mandatory_splits (c :: cs) pid =
        ((handle_mandatory_splits cs pid).1, c :: (handle_mandatory_splits cs pid).2)) := by
  constructor
  · intro h45
    simp only [handle_mandatory_splits, if_pos h45]
    simp [claimSplitPart_eq, claimNumSplits_eq]
  · intro hle
    simp only [handle_mandatory_splits, if_neg (by omega : ¬ 45 < c.hours)]

theorem C5_splitter_formula_witness :
    handle_mandatory_splits [⟨"O", 100, 3, true, "Z"⟩] 1 =
      ((List.range (claimNumSplits ⟨"O", 100, 3, true, "Z"⟩)).map (fun i =>
          (mkPosition (1 + i)).assign_client (claimSplitPart ⟨"O", 100, 3, true, "Z"⟩ i))
        ++ (handle_mandatory_splits [] (1 + claimNumSplits ⟨"O", 100, 3, true, "Z"⟩)).1,
       (handle_mandatory_splits [] (1 + claimNumSplits ⟨"O", 100, 3, true, "Z"⟩)).2) :=
  (C5_splitter_formula ⟨"O", 100, 3, true, "Z"⟩ [] 1).1 (by decide)

/-! ## Claim C10: split parts respect the 45-hour cap and conserve hours -/

theorem sum_map_ite_lt (m : Nat) : ∀ k,
    ((List.range k).map fun i => if i < m then 1 else 0).sum = min m k := by
  intro k
  induction k with
  | zero => simp
  | succ k ih =>
    rw [List.range_succ, List.map_append, List.sum_append, ih]
    by_cases h : k < m <;> simp [h] <;> omega

theorem sum_map_const_range (k v : Nat) : ((List.range k).map fun _ => v).sum = k * v := by
  induction k with
  | zero => simp
  | succ k ih =>
    rw [List.range_succ, List.map_append, List.sum_append, ih]
    simp
    ring

theorem sum_map_add_nat {α : Type} (l : List α) (f g : α → Nat) :
    (l.map fun x => f x + g x).sum = (l.map f).sum + (l.map g).sum := by
  induction l with
  | nil => rfl
  | cons a as ih =>
    simp only [List.map_cons, List.sum_cons, ih]
    omega

theorem numSplits_pos (c : Client) (h45 : 45 < c.hours) : 0 < numSplits c := by
  unfold numSplits
  omega

theorem hours_le_mul_numSplits (c : Client) : c.hours ≤ 45 * numSplits c := by
  unfold numSplits
  omega

theorem part_hours_le (c : Client) (h45 : 45 < c.hours) (i : Nat) :
    (splitPartClient c (numSplits c) i).hours ≤ 45 := by
  have hk := numSplits_pos c h45
  have hle := hours_le_mul_numSplits c
  show c.hours / numSplits c + (if i < c.hours % numSplits c then 1 else 0) ≤ 45
  by_cases hi : i < c.hours % numSplits c
  · rw [if_pos hi]
    have hm : c.hours % numSplits c ≠ 0 := by omega
    have hne : c.hours ≠ 45 * numSplits c := by
      intro he
      apply hm
      rw [he, Nat.mul_comm]
      exact Nat.mul_mod_right (numSplits c) 45
    have hlt : c.hours < 45 * numSplits c := by omega
    have hdiv : c.hours / numSplits c < 45 := (Nat.div_lt_iff_lt_mul hk).mpr hlt
    omega
  · rw [if_neg hi]
    have hdiv : ¬ 46 ≤ c.hours / numSplits c := by
      intro h46
      have h1 := (Nat.le_div_iff_mul_le hk).mp h46
      omega
    omega

theorem sum_parts_hours (c : Client) (h45 : 45 < c.hours) :
    ((List.range (numSplits c)).map fun i => (splitPartClient c (numSplits c) i).hours).sum
      = c.hours := by
  have hk := numSplits_pos c h45
  have hmap : ((List.range (numSplits c)).map fun i => (splitPartClient c (numSplits c) i).hours)
      = (List.range (numSplits c)).map
          fun i => c.hours / numSplits c + (if i < c.hours % numSplits c then 1 else 0) := rfl
  rw [hmap, sum_map_add_nat, sum_map_const_range, sum_map_ite_lt]
  have hmod : c.hours % numSplits c < numSplits c := Nat.mod_lt _ hk
  rw [Nat.min_eq_left (Nat.le_of_lt hmod)]
  exact Nat.div_add_mod c.hours (numSplits c)

theorem handle_splits_hours_le : ∀ (cs : List Client) (pid : Nat) (p : CaregiverPosition),
    p ∈ (handle_mandatory_splits cs pid).1 → p.total_hours ≤ 45 := by
  intro cs
  induction cs with
  | nil => intro pid p hp; simp [handle_mandatory_splits] at hp
  | cons c cs ih =>
    intro pid p hp
    by_cases h45 : 45 < c.hours
    · simp only [handle_mandatory_splits, if_pos h45] at hp
      rcases List.mem_append.mp hp with hmem | hmem
      · obtain ⟨i, hi, rfl⟩ := List.mem_map.mp hmem
        have := part_hours_le c h45 i
        simpa [mkPosition, CaregiverPosition.assign_client] using this
      · exact ih _ p hmem
    · simp only [handle_mandatory_splits, if_neg h45] at hp
      exact ih _ p hp

/-- C10: every position the splitter pre-forms satisfies the 45-hour
construction cap; for any oversized client the sub-clients' hours are each at
most 45 and sum exactly to the original hours; and the sub-clients' days can
sum to more than the original days because of the force-days-to-1 rule. -/
theorem C10_split_parts_bounds :
    (∀ (cs : List Client) (pid : Nat) (p : CaregiverPosition),
        p ∈ (handle_mandatory_splits cs pid).1 → p.total_hours ≤ 45)
    ∧ (∀ c : Client, 45 < c.hours →
        ((List.range (numSplits c)).map fun i => (splitPartClient c (numSplits c) i).hours).sum
          = c.hours
        ∧ ∀ i, (splitPartClient c (numSplits c) i).hours ≤ 45)
    ∧ (∃ c : Client, 45 < c.hours ∧
        c.days < ((List.range (numSplits c)).map fun i =>
          (splitPartClient c (numSplits c) i).days).sum) :=
  ⟨handle_splits_hours_le,
   fun c h45 => ⟨sum_parts_hours c h45, fun i => part_hours_le c h45 i⟩,
   ⟨⟨"W", 90, 1, false, "Z"⟩, by decide, by decide⟩⟩

theorem C10_split_parts_bounds_witness :
    ((mkPosition 1).assign_client (splitPartClient ⟨"O", 100, 3, true, "Z"⟩ 3 0)).total_hours ≤ 45
    ∧ ((List.range (numSplits ⟨"V", 50, 2, false, "Z"⟩)).map fun i =>
        (splitPartClient ⟨"V", 50, 2, false, "Z"⟩ (numSplits ⟨"V", 50, 2, false, "Z"⟩) i).hours).sum
      = 50 := by
  constructor
  · exact C10_split_parts_bounds.1 [⟨"O", 100, 3, true, "Z"⟩] 1 _ (by decide)
  · exact (C10_split_parts_bounds.2.1 ⟨"V", 50, 2, false, "Z"⟩ (by decide)).1

/-! ## Claim C3: hour conservation of the full pipeline -/

/-- C3 counterexample: a single 10-hour client has positive input hours but,
being below the 16-hour floor and unmergeable, yields the empty schedule, so
the sum of returned weekly hours (0) differs from the sum of input hours with
hours > 0 (10). -/
theorem C3_hour_conservation_counterexample :
    optimize_with_strategic_enhancements [⟨"N", 10, 1, false, "90210"⟩] = []
    ∧ sumPositionHours (optimize_with_strategic_enhancements [⟨"N", 10, 1, false, "90210"⟩])
      ≠ sumClientHours [⟨"N", 10, 1, false, "90210"⟩] := by
  decide

/-- C3 amended: hour conservation does not hold for every input (hours of
unschedulable clients are dropped from the output); what the orchestrator
guarantees is the warning discipline — the consistency warning fires exactly
when the final validated solution's total hours differ from the input
clients' total, and the solution is still returned as the result in either
case rather than raising a failure. -/
theorem C3_hour_conservation_amended (cs : List Client) :
    ((optimize_with_warn cs).2 = true →
      sumPositionHours (optimize_with_strategic_enhancements cs) ≠ sumClientHours cs)
    ∧ ((optimize_with_warn cs).2 = false →
      optimize_with_strategic_enhancements cs = []
      ∨ sumPositionHours (optimize_with_strategic_enhancements cs) = sumClientHours cs) := by
  unfold optimize_with_strategic_enhancements optimize_with_warn
  dsimp only
  repeat' split
  all_goals first
    | exact ⟨fun h => by simp at h, fun _ => Or.inl rfl⟩
    | exact ⟨fun h => of_decide_eq_true h,
             fun h => Or.inr (not_not.mp (of_decide_eq_false h))⟩

theorem C3_hour_conservation_amended_witness :
    sumPositionHours (optimize_with_strategic_enhancements
      [⟨"Big", 50, 2, false, "Z"⟩, ⟨"S", 10, 1, false, "Z"⟩])
    ≠ sumClientHours [⟨"Big", 50, 2, false, "Z"⟩, ⟨"S", 10, 1, false, "Z"⟩] :=
  (C3_hour_conservation_amended [⟨"Big", 50, 2, false, "Z"⟩, ⟨"S", 10, 1, false, "Z"⟩]).1
    (by decide)

/-! ## Claim C1: minimality of the position count -/

theorem searchLoop_eq_nil_iff (clients : List Client) (s : Nat) : ∀ ts : List Nat,
    searchLoop clients s ts = [] ↔ ∀ t ∈ ts, attemptOk clients s t = false := by
  intro ts
  induction ts with
  | nil => simp [searchLoop]
  | cons t ts ih =>
    cases ha : attempt_assignment clients t s with
    | none =>
      simp [searchLoop, ha, attemptOk, List.forall_mem_cons, ih]
    | some sol =>
      by_cases he : sol.isEmpty
      · simp [searchLoop, ha, he, attemptOk, List.forall_mem_cons, ih]
      · by_cases hn : sameNameSets (solutionClientNames sol) (clients.map fun c => c.name)
        · have hsolne : sol ≠ [] := by simpa [List.isEmpty_iff] using he
          simp [searchLoop, ha, he, hn, attemptOk, List.forall_mem_cons, hsolne]
        · simp [searchLoop, ha, he, hn, attemptOk, List.forall_mem_cons, ih]

theorem searchLoop_first (clients : List Client) (s : Nat) : ∀ (n lo t : Nat),
    lo ≤ t → t < lo + n → attemptOk clients s t = true →
    (∀ u, lo ≤ u → u < t → attemptOk clients s u = false) →
    searchLoop clients s (List.range' lo n) = attemptResult clients s t := by
  intro n
  induction n with
  | zero =>
    intro lo t h1 h2 h3 h4
    exact absurd h2 (by omega)
  | succ n ih =>
    intro lo t h1 h2 h3 h4
    rw [List.range'_succ]
    by_cases he : t = lo
    · subst he
      cases ha : attempt_assignment clients t s with
      | none =>
        unfold attemptOk at h3
        rw [ha] at h3
        simp at h3
      | some sol =>
        unfold attemptOk at h3
        rw [ha] at h3
        simp only [Bool.and_eq_true, Bool.not_eq_true'] at h3
        unfold attemptResult
        simp [searchLoop, ha, h3.1, h3.2]
    · have hok_lo : attemptOk clients s lo = false := h4 lo (Nat.le_refl lo) (by omega)
      have hrec := ih (lo + 1) t (by omega) (by omega) h3 (fun u hu1 hu2 => h4 u (by omega) hu2)
      cases ha : attempt_assignment clients lo s with
      | none =>
        simpa [searchLoop, ha] using hrec
      | some sol =>
        unfold attemptOk at hok_lo
        rw [ha] at hok_lo
        by_cases hie : sol.isEmpty
        · simpa [searchLoop, ha, hie] using hrec
        · have hnames : sameNameSets (solutionClientNames sol) (clients.map fun c => c.name)
              = false := by
            simpa [hie] using hok_lo
          simpa [searchLoop, ha, hie, hnames] using hrec

/-- C1 counterexample: for clients A (30h), B (15h), C (15h), all non-driver
with one day each, a fully valid, fully-assigning 2-position solution exists
({A} and {B, C}), and 2 is the theoretical minimum; yet the search returns the
empty schedule, because at each target the backtracking commits to its first
complete raw assignment ({A,B} with {C}, where {C} has 15h < 16h), the
validation failure does not trigger further backtracking, and every target
fails the same way.  The returned count (0) is therefore not the smallest
feasible target (2). -/
theorem C1_minimality_counterexample :
    solutionExistsFor
      [⟨"A", 30, 1, false, "Z"⟩, ⟨"B", 15, 1, false, "Z"⟩, ⟨"C", 15, 1, false, "Z"⟩] 2
    ∧ constraint_satisfaction_algorithm
        [⟨"A", 30, 1, false, "Z"⟩, ⟨"B", 15, 1, false, "Z"⟩, ⟨"C", 15, 1, false, "Z"⟩] 1
      = [] := by
  constructor
  · exact ⟨[[⟨"A", 30, 1, false, "Z"⟩], [⟨"B", 15, 1, false, "Z"⟩, ⟨"C", 15, 1, false, "Z"⟩]],
      rfl, by decide, by decide⟩
  · decide

/-- C1 amended: targets are tried in ascending order from
`theoretical_min = max 1 (ceil(total_hours / 45))` to `practical_max = number
of clients`; the search returns the empty schedule exactly when every target's
single attempt fails, and it returns the result of target `t` whenever `t`'s
attempt succeeds and every smaller in-range target's attempt fails.
Minimality holds only over these per-target attempts, not over abstract
solvability: a fully valid solution may exist at a target whose attempt fails
(see the counterexample), because a validation failure does not cause further
backtracking. -/
theorem C1_minimality_amended (clients : List Client) (s : Nat)
    (hpos : 0 < sumClientHours clients) :
    (constraint_satisfaction_algorithm clients s = []
      ↔ ∀ t, max 1 ((sumClientHours clients + 44) / 45) ≤ t → t ≤ clients.length →
          attemptOk clients s t = false)
    ∧ (∀ t, max 1 ((sumClientHours clients + 44) / 45) ≤ t → t ≤ clients.length →
        attemptOk clients s t = true →
        (∀ u, max 1 ((sumClientHours clients + 44) / 45) ≤ u → u < t →
          attemptOk clients s u = false) →
        constraint_satisfaction_algorithm clients s = attemptResult clients s t) := by
  have hne : clients ≠ [] := by
    intro h
    rw [h] at hpos
    simp [sumClientHours] at hpos
  have hie : clients.isEmpty = false := by simpa [List.isEmpty_iff] using hne
  have hsum : ¬ sumClientHours clients = 0 := by omega
  have hcsa : constraint_satisfaction_algorithm clients s
      = searchLoop clients s
          (List.range' (max 1 ((sumClientHours clients + 44) / 45))
            (clients.length + 1 - max 1 ((sumClientHours clients + 44) / 45))) := by
    unfold constraint_satisfaction_algorithm
    simp [hie, hsum, hpos]
  rw [hcsa]
  constructor
  · refine Iff.trans (searchLoop_eq_nil_iff clients s _) ?_
    constructor
    · intro h t ht1 ht2
      exact h t (List.mem_range'_1.mpr ⟨ht1, by omega⟩)
    · intro h t htmem
      obtain ⟨ht1, ht2⟩ := List.mem_range'_1.mp htmem
      exact h t ht1 (by omega)
  · intro t ht1 ht2 hok hmin
    exact searchLoop_first clients s _ _ t ht1 (by omega) hok (fun u hu1 hu2 => hmin u hu1 hu2)

theorem C1_minimality_amended_witness :
    constraint_satisfaction_algorithm [⟨"A", 20, 1, false, "Z"⟩] 1
      = attemptResult [⟨"A", 20, 1, false, "Z"⟩] 1 1 := by
  refine (C1_minimality_amended [⟨"A", 20, 1, false, "Z"⟩] 1 (by decide)).2 1
    (by decide) (by decide) (by decide) ?_
  intro u hu1 hu2
  have he : max 1 ((sumClientHours [(⟨"A", 20, 1, false, "Z"⟩ : Client)] + 44) / 45) = 1 := by
    decide
  rw [he] at hu1
  omega
